import Mathlib

/-!
# Verification of the MosquitoTensor `Tensor` class

A shallow embedding of the MosquitoTensor tensor algebra (srcs/Tensor.h).
The repository ships only the header (declarations and documentation); the
implementation file `Tensor.cpp` is not among the sources, so the bodies of
the member functions are modelled from the specification, faithful to its
words; each such definition carries a doc comment saying so.

Components are C `double`s; we model them as rationals, which captures the
exact algebraic content of the claims (which components are combined and how)
without floating-point rounding.
-/

/-- The fixed dimension of every tensor axis ("The dimension is assumed to
be 4", macroed constant `DIMENSION`). -/
def DIMENSION : Nat := 4

/-- Named types for the indices, from the `IndexType` enum of `Tensor.h`
(`COVARIANT = -1`, `CONTRAVARIANT = 1`, with synonyms `DOWN`/`UP`). -/
inductive IndexType where
  | COVARIANT
  | CONTRAVARIANT
deriving DecidableEq, Repr

/-- Synonym: `UP` indices are `CONTRAVARIANT` (vector type). -/
abbrev IndexType.UP : IndexType := IndexType.CONTRAVARIANT

/-- Synonym: `DOWN` indices are `COVARIANT` (covector type). -/
abbrev IndexType.DOWN : IndexType := IndexType.COVARIANT

/-- The state of a `Tensor` object: its rank, the per-axis variance types,
the abstract index labels (`char* indexes`, sentinel `'\0'`), and the flat
component buffer (`double* components`). -/
structure Tensor where
  rank : Nat
  types : List IndexType
  indexes : List Char
  components : List Rat
deriving DecidableEq, Repr

/-- The sentinel label: a label of `0`, `'.'` or `'-'` means "do not sum". -/
def isSentinel (c : Char) : Bool :=
  c = Char.ofNat 0 || c = '.' || c = '-'

/-- Modelled from the spec: `index(indices)` (declared in `Tensor.h`, body in
the missing `Tensor.cpp`) computes the flat offset using the row-major,
last-axis-fastest convention `offset = Σ indices[k] · DIMENSION^(rank-1-k)`. -/
def flatIndex (rank : Nat) (indices : List Nat) : Nat :=
  ∑ k ∈ Finset.range rank, indices.getD k 0 * DIMENSION ^ (rank - 1 - k)

/-- Modelled from the spec: `indexToIndices(offset, out)` (declared in
`Tensor.h`, body in the missing `Tensor.cpp`) decomposes `offset` by repeated
div/mod against `DIMENSION`, writing `rank` entries, most-significant
(axis 0) first. -/
def indexToIndices (rank : Nat) (n : Nat) : List Nat :=
  match rank with
  | 0 => []
  | r + 1 => indexToIndices r (n / DIMENSION) ++ [n % DIMENSION]

/-- Modelled from the spec: `getComponent(indices)` is a convenience wrapper
around `index()` reading one scalar component from the flat buffer. -/
def Tensor.getComponent (t : Tensor) (indices : List Nat) : Rat :=
  t.components.getD (flatIndex t.rank indices) 0

/-- Modelled from the spec: `setComponent(indices, value)` is a convenience
wrapper around `index()` writing one scalar component of the flat buffer. -/
def Tensor.setComponent (t : Tensor) (indices : List Nat) (value : Rat) : Tensor :=
  { t with components := t.components.set (flatIndex t.rank indices) value }

/-- Modelled from the spec: the constructor `Tensor(int Rank, IndexType*
Types)` (via `init`) allocates a components buffer of size
`DIMENSION^rank`, zero-fills it, and duplicates the supplied `types` array;
initial label values are `0`. -/
def Tensor.mk0 (Rank : Nat) (Types : List IndexType) : Tensor :=
  { rank := Rank
  , types := Types
  , indexes := List.replicate Rank (Char.ofNat 0)
  , components := List.replicate (DIMENSION ^ Rank) 0 }

/-- Modelled from the spec: the copy constructor `Tensor(const Tensor&)`
duplicates storage and types but clears the abstract labels to the
all-sentinel state. -/
def Tensor.copy (t : Tensor) : Tensor :=
  { rank := t.rank
  , types := t.types
  , indexes := List.replicate t.rank (Char.ofNat 0)
  , components := t.components }

/-- Modelled from the spec: `operator+` (body in the missing `Tensor.cpp`)
requires both operands to have equal rank and identical `types` sequences —
mismatch is a detected usage error (`none`); otherwise the result keeps the
rank, types and the left operand's labels, and each component is the
pairwise sum. -/
def Tensor.add (a b : Tensor) : Option Tensor :=
  if a.rank = b.rank ∧ a.types = b.types then
    some { rank := a.rank
         , types := a.types
         , indexes := a.indexes
         , components := List.zipWith (fun x y => x + y) a.components b.components }
  else none

/-- Modelled from the spec: `operator*(const double)` (body in the missing
`Tensor.cpp`) returns a new tensor of identical rank/types/labels with every
component scaled; the original tensor is not mutated. -/
def Tensor.smul (t : Tensor) (s : Rat) : Tensor :=
  { t with components := t.components.map (fun x => x * s) }

/-- The friend `operator*(const double, const Tensor&)`, implemented inline
in `Tensor.h`: `return tensor*scalar`. -/
def scalarMulLeft (s : Rat) (t : Tensor) : Tensor :=
  t.smul s

/-- Remove the entries at the two eliminated axis positions (`i1 ≠ i2`) of a
per-axis list, keeping the remaining entries in original relative order. -/
def remove2 {α : Type} (l : List α) (i1 i2 : Nat) : List α :=
  (l.eraseIdx (max i1 i2)).eraseIdx (min i1 i2)

/-- Insert the summed axis value `s` at both eliminated axis positions of a
result multi-index, recovering a full source multi-index. -/
def insert2 (ix : List Nat) (i1 i2 : Nat) (s : Nat) : List Nat :=
  (ix.insertIdx (min i1 i2) s).insertIdx (max i1 i2) s

/-- Modelled from the spec: `contract(index1, index2)` (body in the missing
`Tensor.cpp`) builds a result of rank `r-2` whose remaining axes keep their
original relative order, types and labels; every result component is the sum
over the summed axis value `s < DIMENSION` of the source component obtained
by inserting `s` at both eliminated positions of the result multi-index. -/
def Tensor.contractIdx (t : Tensor) (i1 i2 : Nat) : Tensor :=
  let r := t.rank - 2
  { rank := r
  , types := remove2 t.types i1 i2
  , indexes := remove2 t.indexes i1 i2
  , components := (List.range (DIMENSION ^ r)).map fun n =>
      ∑ s ∈ Finset.range DIMENSION,
        t.getComponent (insert2 (indexToIndices r n) i1 i2 s) }

/-- All axis pairs `(i, j)` with `i < j < r` in lexicographic scan order,
the "first found" order of the contraction pair scan. -/
def allPairs (r : Nat) : List (Nat × Nat) :=
  (List.range r).flatMap fun i =>
    (List.range r).filterMap fun j => if i < j then some (i, j) else none

/-- Modelled from the spec: the contraction-detection rule: a pair of axes is
pending iff their labels are equal, the shared label is not a sentinel, and
their types differ (mixed variance); the first pending pair in scan order is
selected. -/
def Tensor.findPair (t : Tensor) : Option (Nat × Nat) :=
  (allPairs t.rank).find? fun p =>
    decide (t.indexes.getD p.1 (Char.ofNat 0) = t.indexes.getD p.2 (Char.ofNat 0)
      ∧ isSentinel (t.indexes.getD p.1 (Char.ofNat 0)) = false
      ∧ t.types.getD p.1 IndexType.COVARIANT ≠ t.types.getD p.2 IndexType.COVARIANT)

/-- Modelled from the spec: the recursion of the no-argument `contract()`:
contract the first pending pair and repeat until no pending pair remains.
Each step reduces the rank by 2, so `rank` steps of fuel always suffice. -/
def autoContractGo : Nat → Tensor → Tensor
  | 0, t => t
  | fuel + 1, t =>
    match t.findPair with
    | none => t
    | some p => autoContractGo fuel (t.contractIdx p.1 p.2)

/-- Modelled from the spec: the no-argument `contract()` (body in the missing
`Tensor.cpp`), invoked implicitly after every multiplication. -/
def Tensor.autoContract (t : Tensor) : Tensor :=
  autoContractGo t.rank t

/-- Modelled from the spec: the outer-product intermediate of
`operator*(const Tensor&)`: rank is the sum of the ranks, the types and
labels sequences are the concatenations, and the component at a combined
multi-index is the product of the left operand's component at the first
`a.rank` axes and the right operand's component at the remaining axes. -/
def Tensor.mulRaw (a b : Tensor) : Tensor :=
  let r := a.rank + b.rank
  { rank := r
  , types := a.types ++ b.types
  , indexes := a.indexes ++ b.indexes
  , components := (List.range (DIMENSION ^ r)).map fun n =>
      a.getComponent ((indexToIndices r n).take a.rank) *
        b.getComponent ((indexToIndices r n).drop a.rank) }

/-- Modelled from the spec: `operator*(const Tensor&)` (body in the missing
`Tensor.cpp`): the outer product followed by the implicit contraction
engine. -/
def Tensor.mul (a b : Tensor) : Tensor :=
  (a.mulRaw b).autoContract

/-- Modelled from the spec: the compact string-literal grammar of the string
constructor: a sequence of tokens, each `'^'` (CONTRAVARIANT) or `'_'`
(COVARIANT) followed by a label character; yields the token types and token
labels, or `none` for a string not of that shape. -/
def parseTokens : List Char → Option (List IndexType × List Char)
  | [] => some ([], [])
  | '^' :: c :: rest =>
    (parseTokens rest).map fun p => (IndexType.CONTRAVARIANT :: p.1, c :: p.2)
  | '_' :: c :: rest =>
    (parseTokens rest).map fun p => (IndexType.COVARIANT :: p.1, c :: p.2)
  | _ => none

/-- Modelled from the spec: the string constructor (used as
`Tensor Gamma("^a_b_c")` in the documentation; not declared in the shipped
header): parses the literal grammar and creates a zero-filled tensor whose
rank is the token count, with the token types and initial labels. -/
def Tensor.ofString (s : String) : Option Tensor :=
  (parseTokens s.toList).map fun p =>
    { rank := p.1.length
    , types := p.1
    , indexes := p.2
    , components := List.replicate (DIMENSION ^ p.1.length) 0 }

/-- Rendering of a token sequence back into the literal grammar, used to
quantify over all well-formed literals. -/
def renderTokens (tks : List (IndexType × Char)) : List Char :=
  tks.flatMap fun tk =>
    [if tk.1 = IndexType.CONTRAVARIANT then '^' else '_', tk.2]

/-- Modelled from the spec: `operator()(char i1, ...)`: assigns the label
array of `this` in place (`none` models a null first argument, which clears
all labels), then returns a tensor *by value*, passed through the implicit
contraction engine ("possibly with indexes contracted"). The result pair is
(state of `this` after the call, the returned value). -/
def Tensor.callOp (t : Tensor) (ls : Option (List Char)) : Tensor × Tensor :=
  let newIndexes :=
    match ls with
    | none => List.replicate t.rank (Char.ofNat 0)
    | some l => l
  let t' := { t with indexes := newIndexes }
  (t', t'.autoContract)

/-- A concrete rank-2 `{UP, DOWN}` tensor with components `0, …, 15`, used
to evaluate the contraction theorems on a concrete input. -/
def sampleRank2 : Tensor :=
  { rank := 2
  , types := [IndexType.UP, IndexType.DOWN]
  , indexes := [Char.ofNat 0, Char.ofNat 0]
  , components := (List.range 16).map (fun n => (n : Rat)) }

/-- A concrete rank-1 contravariant tensor labeled `a`. -/
def sampleU : Tensor :=
  { rank := 1, types := [IndexType.UP], indexes := ['a']
  , components := [1, 2, 3, 4] }

/-- A concrete rank-1 covariant tensor labeled `a`. -/
def sampleV : Tensor :=
  { rank := 1, types := [IndexType.DOWN], indexes := ['a']
  , components := [10, 20, 30, 40] }

/- ### Auxiliary lemmas about the indexing scheme -/

theorem indexToIndices_length (rank n : Nat) :
    (indexToIndices rank n).length = rank := by
  induction rank generalizing n with
  | zero => rfl
  | succ r ih => simp [indexToIndices, ih]

theorem flatIndex_append_last (xs : List Nat) (x : Nat) :
    flatIndex (xs.length + 1) (xs ++ [x]) =
      DIMENSION * flatIndex xs.length xs + x := by
  unfold flatIndex
  rw [Finset.sum_range_succ]
  have hlast : (xs ++ [x]).getD xs.length 0 = x := by
    rw [List.getD_append_right _ _ _ _ le_rfl, Nat.sub_self]
    rfl
  rw [hlast]
  have hsub : xs.length + 1 - 1 - xs.length = 0 := by omega
  rw [hsub, pow_zero, mul_one]
  congr 1
  rw [Finset.mul_sum]
  refine Finset.sum_congr rfl fun k hk => ?_
  have hk' : k < xs.length := Finset.mem_range.mp hk
  rw [List.getD_append _ _ _ _ hk']
  have hpow : xs.length + 1 - 1 - k = (xs.length - 1 - k) + 1 := by omega
  rw [hpow, pow_succ]
  ring

theorem flatIndex_indexToIndices (rank n : Nat) (hn : n < DIMENSION ^ rank) :
    flatIndex rank (indexToIndices rank n) = n := by
  induction rank generalizing n with
  | zero =>
    have h0 : n = 0 := by
      rw [pow_zero] at hn
      omega
    subst h0
    rfl
  | succ r ih =>
    have hdiv : n / DIMENSION < DIMENSION ^ r := by
      rw [pow_succ'] at hn
      exact Nat.div_lt_of_lt_mul hn
    have hlen := indexToIndices_length r (n / DIMENSION)
    have key := flatIndex_append_last (indexToIndices r (n / DIMENSION)) (n % DIMENSION)
    rw [hlen] at key
    simp only [indexToIndices]
    rw [key, ih _ hdiv, Nat.div_add_mod]

theorem indexToIndices_flatIndex (ix : List Nat) (hix : ∀ i ∈ ix, i < DIMENSION) :
    indexToIndices ix.length (flatIndex ix.length ix) = ix := by
  induction ix using List.reverseRecOn with
  | nil => rfl
  | append_singleton xs x ih =>
    have hx : x < DIMENSION := hix x (by simp)
    have hxs : ∀ i ∈ xs, i < DIMENSION := fun i hi => hix i (by simp [hi])
    have hlen : (xs ++ [x]).length = xs.length + 1 := by simp
    rw [hlen, flatIndex_append_last]
    have hdim : (0 : Nat) < DIMENSION := by decide
    have hdiv : (DIMENSION * flatIndex xs.length xs + x) / DIMENSION
        = flatIndex xs.length xs := by
      rw [Nat.mul_add_div hdim, Nat.div_eq_of_lt hx, Nat.add_zero]
    have hmod : (DIMENSION * flatIndex xs.length xs + x) % DIMENSION = x := by
      rw [Nat.mul_add_mod, Nat.mod_eq_of_lt hx]
    simp only [indexToIndices, hdiv, hmod]
    rw [ih hxs]

/-- C1: the storage mapping is a bijection: for every valid multi-index `ix`
(entries in `[0, DIMENSION)`, length `r`), `indexToIndices (index ix) = ix`,
and for every flat offset `n < DIMENSION^r`, `index (indexToIndices n) = n`,
where `index` is the row-major last-axis-fastest sum
`Σ indices[k] · DIMENSION^(rank-1-k)`. -/
theorem index_indexToIndices_round_trip (r n : Nat) (ix : List Nat)
    (hlen : ix.length = r) (hix : ∀ i ∈ ix, i < DIMENSION)
    (hn : n < DIMENSION ^ r) :
    indexToIndices r (flatIndex r ix) = ix ∧
      flatIndex r (indexToIndices r n) = n := by
  constructor
  · rw [← hlen]
    exact indexToIndices_flatIndex ix hix
  · exact flatIndex_indexToIndices r n hn

/-- Witness for C1 at rank 2, `ix = [1, 3]`, `n = 9`. -/
theorem index_indexToIndices_round_trip_witness :
    indexToIndices 2 (flatIndex 2 [1, 3]) = [1, 3] ∧
      flatIndex 2 (indexToIndices 2 9) = 9 :=
  index_indexToIndices_round_trip 2 9 [1, 3] (by decide)
    (by decide) (by decide)

/-- C2: a tensor freshly constructed with rank `r` and a types sequence of
length `r` has exactly `DIMENSION^r` components and every component is 0. -/
theorem fresh_tensor_all_zero (r : Nat) (ty : List IndexType)
    (hty : ty.length = r) :
    (Tensor.mk0 r ty).rank = r ∧ (Tensor.mk0 r ty).types = ty ∧
      (Tensor.mk0 r ty).components.length = DIMENSION ^ r ∧
      (Tensor.mk0 r ty).components = List.replicate (DIMENSION ^ r) 0 :=
  ⟨rfl, rfl, by simp [Tensor.mk0], rfl⟩

/-- Witness for C2 at rank 2, types `{UP, DOWN}`. -/
theorem fresh_tensor_all_zero_witness :
    (Tensor.mk0 2 [IndexType.UP, IndexType.DOWN]).components.length
      = DIMENSION ^ 2 :=
  (fresh_tensor_all_zero 2 [IndexType.UP, IndexType.DOWN] rfl).2.2.1

/-- C3: copy construction preserves rank, components and types, and resets
every abstract index label to the sentinel ("not named") state, regardless
of the labels the original carried. -/
theorem copy_preserves_storage_clears_labels (t : Tensor) :
    t.copy.rank = t.rank ∧ t.copy.components = t.components ∧
      t.copy.types = t.types ∧
      t.copy.indexes = List.replicate t.rank (Char.ofNat 0) ∧
      isSentinel (Char.ofNat 0) = true :=
  ⟨rfl, rfl, rfl, rfl, rfl⟩

/-- C4: addition succeeds exactly on operands of equal rank and identical
types; the sum keeps the rank, the types and the left operand's labels, and
each component is the pairwise sum; a types mismatch is detected and
reported (`none`) rather than silently producing a malformed result. -/
theorem add_componentwise (a b c : Tensor) :
    (a.rank = b.rank → a.types = b.types → a.add b ≠ none) ∧
    (a.add b = some c →
      a.rank = b.rank ∧ a.types = b.types ∧
      c.rank = a.rank ∧ c.types = a.types ∧ c.indexes = a.indexes ∧
      c.components.length = min a.components.length b.components.length ∧
      ∀ n, n < c.components.length →
        c.components.getD n 0
          = a.components.getD n 0 + b.components.getD n 0) ∧
    (a.types ≠ b.types → a.add b = none) := by
  refine ⟨fun h1 h2 => ?_, fun hsome => ?_, fun hne => ?_⟩
  · simp [Tensor.add, h1, h2]
  · rw [Tensor.add] at hsome
    split at hsome
    · rename_i hcond
      obtain ⟨h1, h2⟩ := hcond
      obtain rfl : c = _ := (Option.some_inj.mp hsome).symm
      refine ⟨h1, h2, rfl, rfl, rfl, by simp, fun n hn => ?_⟩
      simp only [List.length_zipWith] at hn
      rw [List.getD_eq_getElem _ _ (by simpa using hn),
          List.getD_eq_getElem _ _ (by omega),
          List.getD_eq_getElem _ _ (by omega)]
      exact List.getElem_zipWith
    · exact absurd hsome (by simp)
  · rw [Tensor.add, if_neg]
    exact fun h => hne h.2

/-- Witness for C4: adding two concrete rank-1 tensors of equal types, and a
concrete types mismatch being rejected. -/
theorem add_componentwise_witness :
    ({ rank := 1, types := [IndexType.UP], indexes := [Char.ofNat 0]
     , components := [1, 2, 3, 4] } : Tensor).add
      { rank := 1, types := [IndexType.UP], indexes := [Char.ofNat 0]
      , components := [10, 20, 30, 40] } ≠ none ∧
    ({ rank := 1, types := [IndexType.UP], indexes := [Char.ofNat 0]
     , components := [1, 2, 3, 4] } : Tensor).add
      { rank := 1, types := [IndexType.DOWN], indexes := [Char.ofNat 0]
      , components := [10, 20, 30, 40] } = none :=
  ⟨(add_componentwise _ _ (Tensor.mk0 0 [])).1 rfl rfl,
    (add_componentwise _ _ (Tensor.mk0 0 [])).2.2 (by decide)⟩

/-- The flat offset of a multi-index of in-range axis values is a valid
storage offset. -/
theorem flatIndex_lt (ix : List Nat) (hix : ∀ i ∈ ix, i < DIMENSION) :
    flatIndex ix.length ix < DIMENSION ^ ix.length := by
  induction ix using List.reverseRecOn with
  | nil => simp [flatIndex]
  | append_singleton xs x ih =>
    have hx : x < DIMENSION := hix x (by simp)
    have hf := ih (fun i hi => hix i (by simp [hi]))
    have hlen : (xs ++ [x]).length = xs.length + 1 := by simp
    rw [hlen, flatIndex_append_last, pow_succ']
    have e : DIMENSION = 4 := rfl
    rw [e] at hx hf ⊢
    omega

/-- C5 (amended): `index`/`getComponent`/`setComponent` perform no bounds
validation — the caller guarantees every axis value lies in `[0, DIMENSION)`,
and under that guarantee the computed offset is a valid storage offset
`< DIMENSION^rank`; out-of-range axis values are not rejected (documented
limitation), as the counterexample shows. -/
theorem index_valid_under_caller_guarantee (r : Nat) (ix : List Nat)
    (hlen : ix.length = r) (hix : ∀ i ∈ ix, i < DIMENSION) :
    flatIndex r ix < DIMENSION ^ r := by
  subst hlen
  exact flatIndex_lt ix hix

/-- Witness for the amended C5 at `ix = [2, 3]`. -/
theorem index_valid_under_caller_guarantee_witness :
    flatIndex 2 [2, 3] < DIMENSION ^ 2 :=
  index_valid_under_caller_guarantee 2 [2, 3] (by decide) (by decide)

/-- C5 counterexample: the axis value 7 of the multi-index `[7]` lies outside
`[0, DIMENSION)`, yet `index` is not rejected: it silently computes the
offset 7, which is outside the valid storage range `[0, DIMENSION^1)`, and
`getComponent`/`setComponent` on a fresh rank-1 tensor proceed silently
(the write lands nowhere, the read returns 0) with no error signal. -/
theorem index_out_of_range_not_rejected :
    flatIndex 1 [7] = 7 ∧ DIMENSION ^ 1 ≤ 7 ∧
      ((Tensor.mk0 1 [IndexType.UP]).setComponent [7] 5).components
        = (Tensor.mk0 1 [IndexType.UP]).components ∧
      (Tensor.mk0 1 [IndexType.UP]).getComponent [7] = 0 := by
  refine ⟨by decide, by decide, ?_, by decide⟩
  decide

/-- C8: scalar multiplication returns a new tensor of identical rank, types
and labels with every component scaled, and the friend form
`scalar * tensor` (implemented in the header as `tensor*scalar`) agrees with
`tensor * scalar`. -/
theorem smul_componentwise (t : Tensor) (s : Rat) :
    (t.smul s).rank = t.rank ∧ (t.smul s).types = t.types ∧
      (t.smul s).indexes = t.indexes ∧
      (t.smul s).components.length = t.components.length ∧
      (∀ n, n < t.components.length →
        (t.smul s).components.getD n 0 = t.components.getD n 0 * s) ∧
      scalarMulLeft s t = t.smul s := by
  refine ⟨rfl, rfl, rfl, by simp [Tensor.smul], fun n hn => ?_, rfl⟩
  rw [List.getD_eq_getElem _ _ (by simpa [Tensor.smul] using hn),
      List.getD_eq_getElem _ _ hn]
  simp [Tensor.smul]

/-- Witness for C8 at a concrete rank-1 tensor and scalar 3. -/
theorem smul_componentwise_witness :
    (({ rank := 1, types := [IndexType.UP], indexes := ['a']
      , components := [1, 2, 3, 4] } : Tensor).smul 3).components.getD 1 0
      = ({ rank := 1, types := [IndexType.UP], indexes := ['a']
         , components := [1, 2, 3, 4] } : Tensor).components.getD 1 0 * 3 :=
  (smul_componentwise _ 3).2.2.2.2.1 1 (by decide)

theorem parseTokens_renderTokens (tks : List (IndexType × Char)) :
    parseTokens (renderTokens tks)
      = some (tks.map Prod.fst, tks.map Prod.snd) := by
  induction tks with
  | nil => rfl
  | cons tk rest ih =>
    obtain ⟨ty, c⟩ := tk
    have hr : renderTokens ((ty, c) :: rest)
        = (if ty = IndexType.CONTRAVARIANT then '^' else '_')
          :: c :: renderTokens rest := rfl
    cases ty with
    | COVARIANT =>
      rw [hr]
      have hif : (if IndexType.COVARIANT = IndexType.CONTRAVARIANT
          then '^' else '_') = '_' := rfl
      rw [hif]
      show (parseTokens (renderTokens rest)).map
          (fun p => (IndexType.COVARIANT :: p.1, c :: p.2)) = _
      rw [ih]
      rfl
    | CONTRAVARIANT =>
      rw [hr]
      have hif : (if IndexType.CONTRAVARIANT = IndexType.CONTRAVARIANT
          then '^' else '_') = '^' := rfl
      rw [hif]
      show (parseTokens (renderTokens rest)).map
          (fun p => (IndexType.CONTRAVARIANT :: p.1, c :: p.2)) = _
      rw [ih]
      rfl

/-- C9: a string of the compact literal grammar — tokens of `'^'`
(contravariant) or `'_'` (covariant) followed by a label character — yields
a tensor of rank equal to the token count, with types taken from the token
prefixes and initial labels from the token label characters, zero-filled; in
particular `"^a_b_c"` gives rank 3, types `{UP, DOWN, DOWN}`, labels
`{a, b, c}`. -/
theorem ofString_literal_grammar (tks : List (IndexType × Char)) :
    Tensor.ofString (String.mk (renderTokens tks))
        = some { rank := tks.length
               , types := tks.map Prod.fst
               , indexes := tks.map Prod.snd
               , components := List.replicate (DIMENSION ^ tks.length) 0 } ∧
      Tensor.ofString "^a_b_c"
        = some { rank := 3
               , types := [IndexType.UP, IndexType.DOWN, IndexType.DOWN]
               , indexes := ['a', 'b', 'c']
               , components := List.replicate (DIMENSION ^ 3) 0 } := by
  constructor
  · show (parseTokens (renderTokens tks)).map _ = _
    rw [parseTokens_renderTokens]
    simp
  · rfl

/-- C10: the variadic index-naming operation updates only the label array of
`this` in place and returns the relabeled (and auto-contracted) tensor *by
value*: the post-call state of `this` keeps its rank, types and components
unchanged, and a component write applied to the returned value lands in the
returned copy's own storage, not in `this`. -/
theorem callOp_updates_labels_returns_copy (t : Tensor) (ls : List Char)
    (ix : List Nat) (v : Rat) :
    (t.callOp (some ls)).1.components = t.components ∧
      (t.callOp (some ls)).1.rank = t.rank ∧
      (t.callOp (some ls)).1.types = t.types ∧
      (t.callOp (some ls)).1.indexes = ls ∧
      (t.callOp (some ls)).2 = ({ t with indexes := ls } : Tensor).autoContract ∧
      ((t.callOp (some ls)).2.setComponent ix v).components
        = ((t.callOp (some ls)).2).components.set
            (flatIndex (t.callOp (some ls)).2.rank ix) v ∧
      (t.callOp none).1.indexes = List.replicate t.rank (Char.ofNat 0) ∧
      (t.callOp none).1.components = t.components :=
  ⟨rfl, rfl, rfl, rfl, rfl, rfl, rfl, rfl⟩

theorem getD_map_range (g : Nat → Rat) (N n : Nat) (h : n < N) :
    ((List.range N).map g).getD n 0 = g n := by
  rw [List.getD_eq_getElem _ _ (by simpa using h)]
  simp

theorem contractIdx01_rank2_rank (t : Tensor) (h : t.rank = 2) :
    (t.contractIdx 0 1).rank = 0 := by
  simp [Tensor.contractIdx, h]

theorem contractIdx01_rank2_components (t : Tensor) (h : t.rank = 2) :
    (t.contractIdx 0 1).components
      = [∑ s ∈ Finset.range DIMENSION, t.getComponent [s, s]] := by
  simp only [Tensor.contractIdx, h]
  show (List.range (DIMENSION ^ (2 - 2))).map _ = _
  norm_num
  rfl

theorem autoContractGo_succ (fuel : Nat) (t : Tensor) :
    autoContractGo (fuel + 1) t
      = match t.findPair with
        | none => t
        | some p => autoContractGo fuel (t.contractIdx p.1 p.2) := rfl

/-- C6: contracting a rank-2 tensor with types `{UP, DOWN}` over its two
axes yields a rank-0 tensor whose single component equals the trace
`Σ_i a(i,i)` over `i` in `[0, DIMENSION)`. -/
theorem contract_rank2_trace (t : Tensor) (h : t.rank = 2)
    (hty : t.types = [IndexType.UP, IndexType.DOWN]) :
    (t.contractIdx 0 1).rank = 0 ∧
      (t.contractIdx 0 1).getComponent []
        = ∑ i ∈ Finset.range DIMENSION, t.getComponent [i, i] := by
  refine ⟨contractIdx01_rank2_rank t h, ?_⟩
  rw [Tensor.getComponent, contractIdx01_rank2_components t h,
      contractIdx01_rank2_rank t h]
  rfl

/-- Witness for C6: the trace of the concrete tensor with components
`0, …, 15` is `0 + 5 + 10 + 15 = 30`. -/
theorem contract_rank2_trace_witness :
    (sampleRank2.contractIdx 0 1).getComponent [] = 30 := by
  rw [(contract_rank2_trace sampleRank2 rfl rfl).2]
  simp only [show DIMENSION = 4 from rfl, Finset.sum_range_succ,
    Finset.sum_range_zero]
  rw [show sampleRank2.getComponent [0, 0] = 0 from by decide,
      show sampleRank2.getComponent [1, 1] = 5 from by decide,
      show sampleRank2.getComponent [2, 2] = 10 from by decide,
      show sampleRank2.getComponent [3, 3] = 15 from by decide]
  norm_num

/-- C7: multiplying two rank-1 tensors of opposite variance carrying the
same non-sentinel abstract label forms the outer product and auto-contracts
the matching pair: the result has rank 0 and its single component is
`Σ_i u_i · v_i` over `i` in `[0, DIMENSION)`. -/
theorem mul_rank1_dot_product (u v : Tensor) (c : Char)
    (hu : u.rank = 1) (hut : u.types = [IndexType.UP]) (hui : u.indexes = [c])
    (hv : v.rank = 1) (hvt : v.types = [IndexType.DOWN]) (hvi : v.indexes = [c])
    (hc : isSentinel c = false) :
    (u.mul v).rank = 0 ∧
      (u.mul v).getComponent []
        = ∑ i ∈ Finset.range DIMENSION,
            u.getComponent [i] * v.getComponent [i] := by
  have hMrank : (u.mulRaw v).rank = 2 := by simp [Tensor.mulRaw, hu, hv]
  have hMidx : (u.mulRaw v).indexes = [c, c] := by
    simp [Tensor.mulRaw, hui, hvi]
  have hMty : (u.mulRaw v).types = [IndexType.UP, IndexType.DOWN] := by
    simp [Tensor.mulRaw, hut, hvt]
  have hpairs : allPairs 2 = [(0, 1)] := by decide
  have hMfind : (u.mulRaw v).findPair = some (0, 1) := by
    rw [Tensor.findPair, hMrank, hpairs]
    simp [List.find?, hMidx, hMty, hc]
  have hXrank : ((u.mulRaw v).contractIdx 0 1).rank = 0 :=
    contractIdx01_rank2_rank _ hMrank
  have hXfind : ((u.mulRaw v).contractIdx 0 1).findPair = none := by
    rw [Tensor.findPair, hXrank]
    rfl
  have hauto : (u.mulRaw v).autoContract = (u.mulRaw v).contractIdx 0 1 := by
    rw [Tensor.autoContract, hMrank]
    rw [show (2 : Nat) = 1 + 1 from rfl, autoContractGo_succ, hMfind]
    show autoContractGo 1 ((u.mulRaw v).contractIdx 0 1) = _
    rw [show (1 : Nat) = 0 + 1 from rfl, autoContractGo_succ, hXfind]
  constructor
  · rw [Tensor.mul, hauto]
    exact hXrank
  · rw [Tensor.mul, hauto]
    rw [Tensor.getComponent, contractIdx01_rank2_components _ hMrank, hXrank]
    show (∑ s ∈ Finset.range DIMENSION, (u.mulRaw v).getComponent [s, s]) = _
    refine Finset.sum_congr rfl fun s hs => ?_
    have hs4 : s < 4 := by simpa [DIMENSION] using Finset.mem_range.mp hs
    have hfi : flatIndex 2 [s, s] = s * 4 + s := by
      simp [flatIndex, Finset.sum_range_succ, DIMENSION]
    have hM2 : (u.mulRaw v).components = (List.range (DIMENSION ^ 2)).map (fun n =>
        u.getComponent ((indexToIndices 2 n).take 1) *
          v.getComponent ((indexToIndices 2 n).drop 1)) := by
      simp [Tensor.mulRaw, hu, hv]
    rw [Tensor.getComponent, hMrank, hM2, hfi]
    rw [getD_map_range _ _ _ (by simp [DIMENSION]; omega)]
    have hiti : indexToIndices 2 (s * 4 + s) = [s, s] := by
      simp only [indexToIndices]
      simp only [DIMENSION]
      have h1 : (s * 4 + s) / 4 = s := by omega
      have h2 : (s * 4 + s) % 4 = s := by omega
      have h4 : s % 4 = s := by omega
      rw [h1, h2, h4]
      rfl
    rw [hiti]
    rfl

/-- Witness for C7: the concrete dot product
`1·10 + 2·20 + 3·30 + 4·40 = 300`. -/
theorem mul_rank1_dot_product_witness :
    (sampleU.mul sampleV).rank = 0 ∧
      (sampleU.mul sampleV).getComponent [] = 300 := by
  obtain ⟨h0, h1⟩ :=
    mul_rank1_dot_product sampleU sampleV 'a' rfl rfl rfl rfl rfl rfl (by decide)
  refine ⟨h0, ?_⟩
  rw [h1]
  simp only [show DIMENSION = 4 from rfl, Finset.sum_range_succ,
    Finset.sum_range_zero]
  rw [show sampleU.getComponent [0] = 1 from by decide,
      show sampleU.getComponent [1] = 2 from by decide,
      show sampleU.getComponent [2] = 3 from by decide,
      show sampleU.getComponent [3] = 4 from by decide,
      show sampleV.getComponent [0] = 10 from by decide,
      show sampleV.getComponent [1] = 20 from by decide,
      show sampleV.getComponent [2] = 30 from by decide,
      show sampleV.getComponent [3] = 40 from by decide]
  norm_num
